import Mathlib

/-!
# Verification of the Yuho tree-sitter external scanner

Shallow embedding of `src/tree-sitter-yuho/src/scanner.c`. The scanner
recognises three context-sensitive tokens inside string literals:
literal string content, the interpolation opener and the interpolation
closer of the two-character sequence starting a substitution.

Modelling conventions:
* The C `TSLexer` cursor is modelled as a `List Char` of the remaining
  input; end-of-input is the empty list.  The C code additionally treats
  a NUL character (`lexer->lookahead == 0`) as end-of-input, so the
  embedding keeps that check explicitly.
* `advance` (consume into the token span) is modelled by moving the
  character into the `consumed` accumulator; `skip` (whitespace, kept
  out of the token span) simply drops the character.
* The `uint8_t interpolation_depth` field is a `Nat` whose updates are
  taken `% 256` exactly where the C unsigned arithmetic wraps.
* `valid_symbols` (a C array of four booleans indexed by token type) is
  a function `TokenType → Bool`.
-/

/-- The four token kinds of the `TokenType` enum in `scanner.c`. -/
inductive TokenType where
  | STRING_CONTENT
  | INTERPOLATION_START
  | INTERPOLATION_END
  | ERROR_SENTINEL
deriving DecidableEq, Repr

/-- The `Scanner` struct: persistent lexical context. -/
structure Scanner where
  in_string : Bool
  in_interpolation : Bool
  interpolation_depth : Nat
deriving DecidableEq, Repr

/-- Result of one scan call: the reported token kind (`none` when the C
function returns `false`), the characters advanced during the call (the
token span, excluding skipped whitespace), the scanner state after the
call, and the remaining input. -/
structure ScanResult where
  result : Option TokenType
  consumed : List Char
  state : Scanner
  remaining : List Char
deriving DecidableEq, Repr

/-- `tree_sitter_yuho_external_scanner_create`: zero-initialised state. -/
def yuho_scanner_create : Scanner :=
  Scanner.mk false false 0

/-- Encoding of a C `bool` stored into a byte of the serialization
buffer (`(char)scanner->in_string` and friends). -/
def bool_to_byte (b : Bool) : Nat :=
  if b then 1 else 0

/-- Reading a byte of the buffer back into a C `bool`
(`scanner->in_string = buffer[0]`): any nonzero byte is `true`. -/
def byte_to_bool (n : Nat) : Bool :=
  n % 256 != 0

/-- `tree_sitter_yuho_external_scanner_serialize`: writes the three
fields in order and returns length 3. -/
def yuho_scanner_serialize (s : Scanner) : List Nat :=
  [bool_to_byte s.in_string, bool_to_byte s.in_interpolation, s.interpolation_depth]

/-- `tree_sitter_yuho_external_scanner_deserialize`: restores the three
fields from the first three bytes when the buffer holds at least 3
bytes, and resets to the all-clear default otherwise. -/
def yuho_scanner_deserialize (buffer : List Nat) : Scanner :=
  if 3 ≤ buffer.length then
    Scanner.mk (byte_to_bool (buffer.getD 0 0)) (byte_to_bool (buffer.getD 1 0))
      (buffer.getD 2 0 % 256)
  else
    Scanner.mk false false 0

/-- The C `iswspace` classification used by the whitespace-skipping
loop, on the standard C white-space characters. -/
def iswspace (c : Char) : Bool :=
  c = ' ' || c = '\t' || c = '\n' || c = '\x0b' || c = '\x0c' || c = '\r'

/-- `scan_string_content`: the string-content loop.  `has_content`
mirrors the local flag of the same name, `acc` holds the characters
advanced so far in this call (the growing token span).  The iteration
that re-enters the loop after a backslash at end-of-input (or before a
NUL) only to stop at the end-of-input test is unrolled in place. -/
def scan_string_content (input : List Char) (has_content : Bool)
    (acc : List Char) (s : Scanner) : ScanResult :=
  match input with
  | [] =>
    ScanResult.mk (if has_content then some TokenType.STRING_CONTENT else none) acc s []
  | c :: rest =>
    if c = Char.ofNat 0 then
      ScanResult.mk (if has_content then some TokenType.STRING_CONTENT else none) acc s
        (c :: rest)
    else if c = '"' then
      ScanResult.mk (if has_content then some TokenType.STRING_CONTENT else none) acc s
        (c :: rest)
    else if c = '\\' then
      match rest with
      | [] =>
        ScanResult.mk (if has_content then some TokenType.STRING_CONTENT else none)
          (acc ++ [c]) s []
      | d :: rest2 =>
        if d = Char.ofNat 0 then
          ScanResult.mk (if has_content then some TokenType.STRING_CONTENT else none)
            (acc ++ [c]) s (d :: rest2)
        else
          scan_string_content rest2 true (acc ++ [c, d]) s
    else if c = '$' then
      match rest with
      | '{' :: rest2 =>
        ScanResult.mk (some TokenType.INTERPOLATION_START) (acc ++ [c, '{'])
          (Scanner.mk s.in_string true 1) rest2
      | _ => scan_string_content rest true (acc ++ [c]) s
    else
      scan_string_content rest true (acc ++ [c]) s

/-- `scan_interpolation_end`: on a closing brace while inside an
interpolation, decrement the depth (8-bit wrap-around) and, when it
reaches zero, consume the brace, leave the interpolation and report the
closer; otherwise consume nothing and report no token. -/
def scan_interpolation_end (input : List Char) (s : Scanner) : ScanResult :=
  match input with
  | '}' :: rest =>
    if s.in_interpolation then
      if (s.interpolation_depth + 255) % 256 = 0 then
        ScanResult.mk (some TokenType.INTERPOLATION_END) ['}']
          (Scanner.mk s.in_string false ((s.interpolation_depth + 255) % 256)) rest
      else
        ScanResult.mk none []
          (Scanner.mk s.in_string s.in_interpolation ((s.interpolation_depth + 255) % 256))
          ('}' :: rest)
    else
      ScanResult.mk none [] s ('}' :: rest)
  | other => ScanResult.mk none [] s other

/-- The brace-depth bookkeeping of the scan entry point: while inside
an interpolation, an opening brace at the cursor increments the depth
(8-bit wrap-around) without being consumed. -/
def brace_track (rest : List Char) (s1 : Scanner) : Scanner :=
  if s1.in_interpolation then
    match rest with
    | '{' :: _ =>
      Scanner.mk s1.in_string s1.in_interpolation ((s1.interpolation_depth + 1) % 256)
    | _ => s1
  else s1

/-- The tail of the scan entry point after the interpolation-end
attempt: brace bookkeeping followed by the string-content scan when
`STRING_CONTENT` is accepted and the state is inside a string. -/
def scan_tail (valid_symbols : TokenType → Bool) (s1 : Scanner)
    (rest : List Char) : ScanResult :=
  if valid_symbols TokenType.STRING_CONTENT && (brace_track rest s1).in_string then
    scan_string_content rest false [] (brace_track rest s1)
  else
    ScanResult.mk none [] (brace_track rest s1) rest

/-- `tree_sitter_yuho_external_scanner_scan`: skip whitespace, try the
interpolation closer (whose state mutation persists even when it
reports no token), then the brace bookkeeping and the string-content
scan. -/
def yuho_scanner_scan (valid_symbols : TokenType → Bool) (s : Scanner)
    (input : List Char) : ScanResult :=
  if valid_symbols TokenType.INTERPOLATION_END && s.in_interpolation then
    if (scan_interpolation_end (input.dropWhile iswspace) s).result.isSome then
      scan_interpolation_end (input.dropWhile iswspace) s
    else
      scan_tail valid_symbols (scan_interpolation_end (input.dropWhile iswspace) s).state
        (input.dropWhile iswspace)
  else
    scan_tail valid_symbols s (input.dropWhile iswspace)

/-- The documented state invariant: the depth counter is zero whenever
no interpolation is active. -/
def ScannerInv (s : Scanner) : Prop :=
  s.in_interpolation = false → s.interpolation_depth = 0

/-- States reachable from `create` through scan calls and through
serialize/deserialize round trips. -/
inductive Reachable : Scanner → Prop where
  | create : Reachable yuho_scanner_create
  | scan (valid_symbols : TokenType → Bool) (input : List Char) (s : Scanner) :
      Reachable s → Reachable (yuho_scanner_scan valid_symbols s input).state
  | codec (s : Scanner) : Reachable s →
      Reachable (yuho_scanner_deserialize (yuho_scanner_serialize s))

/-! ## Unfolding equations for the string-content loop -/

theorem ssc_nil (hc : Bool) (acc : List Char) (s : Scanner) :
    scan_string_content [] hc acc s =
      ScanResult.mk (if hc then some TokenType.STRING_CONTENT else none) acc s [] := rfl

theorem ssc_nul (hc : Bool) (acc : List Char) (s : Scanner) (rest : List Char) :
    scan_string_content (Char.ofNat 0 :: rest) hc acc s =
      ScanResult.mk (if hc then some TokenType.STRING_CONTENT else none) acc s
        (Char.ofNat 0 :: rest) := by
  rw [scan_string_content.eq_def]; simp

theorem ssc_quote (hc : Bool) (acc : List Char) (s : Scanner) (rest : List Char) :
    scan_string_content ('"' :: rest) hc acc s =
      ScanResult.mk (if hc then some TokenType.STRING_CONTENT else none) acc s
        ('"' :: rest) := by
  rw [scan_string_content.eq_def]; simp

theorem ssc_backslash_nil (hc : Bool) (acc : List Char) (s : Scanner) :
    scan_string_content ['\\'] hc acc s =
      ScanResult.mk (if hc then some TokenType.STRING_CONTENT else none)
        (acc ++ ['\\']) s [] := by
  rw [scan_string_content.eq_def]; simp

theorem ssc_backslash_nul (hc : Bool) (acc : List Char) (s : Scanner) (rest : List Char) :
    scan_string_content ('\\' :: Char.ofNat 0 :: rest) hc acc s =
      ScanResult.mk (if hc then some TokenType.STRING_CONTENT else none)
        (acc ++ ['\\']) s (Char.ofNat 0 :: rest) := by
  rw [scan_string_content.eq_def]; simp

theorem ssc_backslash (hc : Bool) (acc : List Char) (s : Scanner) (d : Char)
    (rest : List Char) (hd : d ≠ Char.ofNat 0) :
    scan_string_content ('\\' :: d :: rest) hc acc s =
      scan_string_content rest true (acc ++ ['\\', d]) s := by
  rw [scan_string_content.eq_def]; simp [hd]

theorem ssc_dollar_open (hc : Bool) (acc : List Char) (s : Scanner) (rest : List Char) :
    scan_string_content ('$' :: '{' :: rest) hc acc s =
      ScanResult.mk (some TokenType.INTERPOLATION_START) (acc ++ ['$', '{'])
        (Scanner.mk s.in_string true 1) rest := by
  rw [scan_string_content.eq_def]; simp

theorem ssc_dollar_other (hc : Bool) (acc : List Char) (s : Scanner) (rest : List Char)
    (h : ∀ r2, rest ≠ '{' :: r2) :
    scan_string_content ('$' :: rest) hc acc s =
      scan_string_content rest true (acc ++ ['$']) s := by
  rw [scan_string_content.eq_def]
  simp

theorem ssc_other (hc : Bool) (acc : List Char) (s : Scanner) (c : Char)
    (rest : List Char) (h0 : c ≠ Char.ofNat 0) (hq : c ≠ '"') (hb : c ≠ '\\')
    (hd : c ≠ '$') :
    scan_string_content (c :: rest) hc acc s =
      scan_string_content rest true (acc ++ [c]) s := by
  rw [scan_string_content.eq_def]; simp [h0, hq, hb, hd]

/-! ## Structural lemmas about the string-content loop -/

/-- The loop either leaves the state untouched or performs exactly the
interpolation-opener transition. -/
theorem ssc_state_cases (input : List Char) (hc : Bool) (acc : List Char) (s : Scanner) :
    (scan_string_content input hc acc s).state = s ∨
      (scan_string_content input hc acc s).state = Scanner.mk s.in_string true 1 := by
  induction input, hc, acc, s using scan_string_content.induct with
  | _ =>
    simp_all [ssc_nil, ssc_nul, ssc_quote, ssc_backslash_nil, ssc_backslash_nul,
      ssc_backslash, ssc_dollar_open, ssc_dollar_other, ssc_other]

/-- Every character of the input is accounted for: the characters
advanced during the call followed by the remaining input reconstitute
the accumulator plus the original input. -/
theorem ssc_decomp (input : List Char) (hc : Bool) (acc : List Char) (s : Scanner) :
    (scan_string_content input hc acc s).consumed ++
      (scan_string_content input hc acc s).remaining = acc ++ input := by
  induction input, hc, acc, s using scan_string_content.induct with
  | _ =>
    simp_all [ssc_nil, ssc_nul, ssc_quote, ssc_backslash_nil, ssc_backslash_nul,
      ssc_backslash, ssc_dollar_open, ssc_dollar_other, ssc_other]

/-- The loop reports nothing, literal content, or the interpolation
opener — never any other kind. -/
theorem ssc_result_cases (input : List Char) (hc : Bool) (acc : List Char) (s : Scanner) :
    (scan_string_content input hc acc s).result = none ∨
      (scan_string_content input hc acc s).result = some TokenType.STRING_CONTENT ∨
      (scan_string_content input hc acc s).result = some TokenType.INTERPOLATION_START := by
  induction input, hc, acc, s using scan_string_content.induct with
  | _ =>
    simp_all [ssc_nil, ssc_nul, ssc_quote, ssc_backslash_nil, ssc_backslash_nul,
      ssc_backslash, ssc_dollar_open, ssc_dollar_other, ssc_other]

/-! ## Lemmas about the interpolation-end matcher -/

theorem sie_close (s : Scanner) (rest : List Char) (hin : s.in_interpolation = true)
    (hz : (s.interpolation_depth + 255) % 256 = 0) :
    scan_interpolation_end ('}' :: rest) s =
      ScanResult.mk (some TokenType.INTERPOLATION_END) ['}']
        (Scanner.mk s.in_string false 0) rest := by
  simp [scan_interpolation_end, hin, hz]

theorem sie_deeper (s : Scanner) (rest : List Char) (hin : s.in_interpolation = true)
    (hnz : (s.interpolation_depth + 255) % 256 ≠ 0) :
    scan_interpolation_end ('}' :: rest) s =
      ScanResult.mk none []
        (Scanner.mk s.in_string s.in_interpolation ((s.interpolation_depth + 255) % 256))
        ('}' :: rest) := by
  simp [scan_interpolation_end, hin, hnz]

theorem sie_nobrace (s : Scanner) (input : List Char) (h : input.head? ≠ some '}') :
    scan_interpolation_end input s = ScanResult.mk none [] s input := by
  cases input with
  | nil => rfl
  | cons c tl =>
    simp only [List.head?_cons, ne_eq, Option.some.injEq] at h
    rw [scan_interpolation_end.eq_def]
    simp [h]

theorem sie_state_cases (input : List Char) (s : Scanner) :
    (scan_interpolation_end input s).state = s ∨
      ((scan_interpolation_end input s).state = Scanner.mk s.in_string false 0 ∧
        s.in_interpolation = true) ∨
      ((scan_interpolation_end input s).state =
          Scanner.mk s.in_string s.in_interpolation ((s.interpolation_depth + 255) % 256) ∧
        s.in_interpolation = true) := by
  cases input with
  | nil => left; rfl
  | cons c tl =>
    by_cases hc : c = '}'
    · subst hc
      by_cases hin : s.in_interpolation
      · by_cases hz : (s.interpolation_depth + 255) % 256 = 0
        · right; left; simp [sie_close s tl hin hz, hin]
        · right; right; simp [sie_deeper s tl hin hz, hin]
      · left
        rw [scan_interpolation_end.eq_def]
        simp [hin]
    · left
      rw [sie_nobrace s (c :: tl) (by simp [hc])]

theorem sie_result_cases (input : List Char) (s : Scanner) :
    (scan_interpolation_end input s).result = none ∨
      (scan_interpolation_end input s).result = some TokenType.INTERPOLATION_END := by
  rw [scan_interpolation_end.eq_def]
  split
  · split
    · split <;> simp
    · simp
  · simp

theorem sie_remaining_le (input : List Char) (s : Scanner) :
    (scan_interpolation_end input s).remaining.length ≤ input.length := by
  rw [scan_interpolation_end.eq_def]
  split
  · split
    · split <;> simp
    · simp
  · simp

/-! ## Lemmas about brace tracking and the scan tail -/

theorem bt_state_cases (rest : List Char) (s1 : Scanner) :
    brace_track rest s1 = s1 ∨
      (brace_track rest s1 =
          Scanner.mk s1.in_string s1.in_interpolation ((s1.interpolation_depth + 1) % 256) ∧
        s1.in_interpolation = true) := by
  rw [brace_track.eq_def]
  split
  · split
    · right; simp_all
    · left; rfl
  · left; rfl

theorem bt_not_interp (rest : List Char) (s1 : Scanner)
    (h : s1.in_interpolation = false) : brace_track rest s1 = s1 := by
  simp [brace_track, h]

theorem bt_not_brace (rest : List Char) (s1 : Scanner)
    (h : rest.head? ≠ some '{') : brace_track rest s1 = s1 := by
  rw [brace_track.eq_def]
  cases rest with
  | nil => split <;> rfl
  | cons c tl =>
    simp only [List.head?_cons, ne_eq, Option.some.injEq] at h
    split
    · simp [h]
    · rfl

theorem scan_tail_state_inv (vs : TokenType → Bool) (s1 : Scanner) (rest : List Char)
    (h : ScannerInv s1) : ScannerInv (scan_tail vs s1 rest).state := by
  unfold scan_tail
  have hb := bt_state_cases rest s1
  split
  · rcases ssc_state_cases rest false [] (brace_track rest s1) with h2 | h2 <;> rw [h2]
    · rcases hb with h3 | ⟨h3, h4⟩
      · rw [h3]; exact h
      · rw [h3]; intro hfalse; simp_all [ScannerInv]
    · intro hfalse; simp_all [ScannerInv]
  · simp only
    rcases hb with h3 | ⟨h3, h4⟩
    · rw [h3]; exact h
    · rw [h3]; intro hfalse; simp_all [ScannerInv]

theorem scan_tail_remaining_le (vs : TokenType → Bool) (s1 : Scanner) (rest : List Char) :
    (scan_tail vs s1 rest).remaining.length ≤ rest.length := by
  unfold scan_tail
  split
  · have h := ssc_decomp rest false [] (brace_track rest s1)
    simp only [List.nil_append] at h
    have := congrArg List.length h
    simp only [List.length_append] at this
    omega
  · simp

/-! ## Lemmas about the scan entry point -/

theorem dropWhile_length_le (p : Char → Bool) (l : List Char) :
    (l.dropWhile p).length ≤ l.length := by
  induction l with
  | nil => simp
  | cons c tl ih =>
    rw [List.dropWhile_cons]
    split
    · exact Nat.le_trans ih (Nat.le_succ _)
    · simp

theorem scan_not_interp (vs : TokenType → Bool) (s : Scanner) (input : List Char)
    (h : s.in_interpolation = false) :
    yuho_scanner_scan vs s input = scan_tail vs s (input.dropWhile iswspace) := by
  unfold yuho_scanner_scan
  simp [h]

theorem scan_eq_tail (vs : TokenType → Bool) (s : Scanner) (input : List Char)
    (h : (input.dropWhile iswspace).head? ≠ some '}') :
    yuho_scanner_scan vs s input = scan_tail vs s (input.dropWhile iswspace) := by
  unfold yuho_scanner_scan
  by_cases hg : vs TokenType.INTERPOLATION_END && s.in_interpolation
  · simp only [hg, if_true]
    rw [sie_nobrace s _ h]
    simp
  · simp [hg]

theorem sie_state_inv (input : List Char) (s : Scanner) (h : ScannerInv s) :
    ScannerInv (scan_interpolation_end input s).state := by
  rcases sie_state_cases input s with h1 | ⟨h1, h2⟩ | ⟨h1, h2⟩ <;> rw [h1]
  · exact h
  · intro _; rfl
  · intro hfalse; simp_all [ScannerInv]

theorem scan_state_inv (vs : TokenType → Bool) (input : List Char) (s : Scanner)
    (h : ScannerInv s) : ScannerInv (yuho_scanner_scan vs s input).state := by
  unfold yuho_scanner_scan
  split
  · split
    · exact sie_state_inv _ _ h
    · exact scan_tail_state_inv vs _ _ (sie_state_inv _ _ h)
  · exact scan_tail_state_inv vs s _ h

theorem sie_depth_lt (input : List Char) (s : Scanner)
    (h : s.interpolation_depth < 256) :
    (scan_interpolation_end input s).state.interpolation_depth < 256 := by
  rcases sie_state_cases input s with h1 | ⟨h1, _⟩ | ⟨h1, _⟩ <;> rw [h1]
  · exact h
  · norm_num
  · have h2 : (s.interpolation_depth + 255) % 256 < 256 := Nat.mod_lt _ (by norm_num)
    simpa using h2

theorem bt_depth_lt (rest : List Char) (s1 : Scanner)
    (h : s1.interpolation_depth < 256) :
    (brace_track rest s1).interpolation_depth < 256 := by
  rcases bt_state_cases rest s1 with h1 | ⟨h1, _⟩ <;> rw [h1]
  · exact h
  · simp; omega

theorem ssc_depth_lt (input : List Char) (hc : Bool) (acc : List Char) (s : Scanner)
    (h : s.interpolation_depth < 256) :
    (scan_string_content input hc acc s).state.interpolation_depth < 256 := by
  rcases ssc_state_cases input hc acc s with h1 | h1 <;> rw [h1]
  · exact h
  · simp

theorem scan_tail_depth_lt (vs : TokenType → Bool) (s1 : Scanner) (rest : List Char)
    (h : s1.interpolation_depth < 256) :
    (scan_tail vs s1 rest).state.interpolation_depth < 256 := by
  unfold scan_tail
  split
  · exact ssc_depth_lt _ _ _ _ (bt_depth_lt rest s1 h)
  · exact bt_depth_lt rest s1 h

theorem scan_depth_lt (vs : TokenType → Bool) (s : Scanner) (input : List Char)
    (h : s.interpolation_depth < 256) :
    (yuho_scanner_scan vs s input).state.interpolation_depth < 256 := by
  unfold yuho_scanner_scan
  split
  · split
    · exact sie_depth_lt _ _ h
    · exact scan_tail_depth_lt vs _ _ (sie_depth_lt _ _ h)
  · exact scan_tail_depth_lt vs s _ h

theorem deserialize_depth_lt (buffer : List Nat) :
    (yuho_scanner_deserialize buffer).interpolation_depth < 256 := by
  unfold yuho_scanner_deserialize
  split <;> simp
  omega

theorem reachable_depth_lt (s : Scanner) (h : Reachable s) :
    s.interpolation_depth < 256 := by
  induction h with
  | create => simp [yuho_scanner_create]
  | scan vs input s0 _ ih => exact scan_depth_lt vs s0 input ih
  | codec s0 _ _ => exact deserialize_depth_lt _

theorem roundtrip_of_lt (s : Scanner) (h : s.interpolation_depth < 256) :
    yuho_scanner_deserialize (yuho_scanner_serialize s) = s := by
  obtain ⟨a, b, d⟩ := s
  simp only [yuho_scanner_serialize, yuho_scanner_deserialize, bool_to_byte, byte_to_bool]
  simp only [Scanner.mk.injEq] at h ⊢
  cases a <;> cases b <;>
    simp_all [List.getD, Nat.mod_eq_of_lt, Nat.mod_eq_of_lt h]

theorem scan_tail_result_cases (vs : TokenType → Bool) (s1 : Scanner) (rest : List Char) :
    (scan_tail vs s1 rest).result = none ∨
      (scan_tail vs s1 rest).result = some TokenType.STRING_CONTENT ∨
      (scan_tail vs s1 rest).result = some TokenType.INTERPOLATION_START := by
  unfold scan_tail
  split
  · exact ssc_result_cases _ _ _ _
  · left; rfl

theorem scan_result_cases (vs : TokenType → Bool) (s : Scanner) (input : List Char) :
    (yuho_scanner_scan vs s input).result = none ∨
      (yuho_scanner_scan vs s input).result = some TokenType.STRING_CONTENT ∨
      (yuho_scanner_scan vs s input).result = some TokenType.INTERPOLATION_START ∨
      (yuho_scanner_scan vs s input).result = some TokenType.INTERPOLATION_END := by
  unfold yuho_scanner_scan
  split
  · split
    · rcases sie_result_cases (input.dropWhile iswspace) s with h1 | h1 <;> simp [h1]
    · rcases scan_tail_result_cases vs
          (scan_interpolation_end (input.dropWhile iswspace) s).state
          (input.dropWhile iswspace) with h1 | h1 | h1 <;> simp [h1]
  · rcases scan_tail_result_cases vs s (input.dropWhile iswspace) with h1 | h1 | h1 <;>
      simp [h1]

theorem scan_remaining_le (vs : TokenType → Bool) (s : Scanner) (input : List Char) :
    (yuho_scanner_scan vs s input).remaining.length ≤ input.length := by
  have hdw := dropWhile_length_le iswspace input
  unfold yuho_scanner_scan
  split
  · split
    · exact Nat.le_trans (sie_remaining_le _ s) hdw
    · exact Nat.le_trans (scan_tail_remaining_le vs _ _) hdw
  · exact Nat.le_trans (scan_tail_remaining_le vs s _) hdw

theorem ssc_remaining_le (input : List Char) (hc : Bool) (acc : List Char) (s : Scanner) :
    (scan_string_content input hc acc s).remaining.length ≤ input.length := by
  induction input, hc, acc, s using scan_string_content.induct with
  | _ =>
    simp_all [ssc_nil, ssc_nul, ssc_quote, ssc_backslash_nil, ssc_backslash_nul,
      ssc_backslash, ssc_dollar_open, ssc_dollar_other, ssc_other] <;> omega

/-- Each iteration of the string-content loop on a non-empty input
either stops at once (leaving the input in place for end-of-input, NUL
or the closing quote) or consumes at least one character. -/
theorem ssc_progress (c : Char) (rest : List Char) (hc : Bool) (acc : List Char)
    (s : Scanner) :
    (scan_string_content (c :: rest) hc acc s).remaining = c :: rest ∨
      (scan_string_content (c :: rest) hc acc s).remaining.length ≤ rest.length := by
  by_cases h0 : c = Char.ofNat 0
  · subst h0; rw [ssc_nul]; left; rfl
  by_cases hq : c = '"'
  · subst hq; rw [ssc_quote]; left; rfl
  by_cases hb : c = '\\'
  · subst hb
    cases rest with
    | nil => rw [ssc_backslash_nil]; right; simp
    | cons d tl =>
      by_cases hd : d = Char.ofNat 0
      · subst hd; rw [ssc_backslash_nul]; right; simp
      · rw [ssc_backslash hc acc s d tl hd]; right
        exact Nat.le_trans (ssc_remaining_le tl true (acc ++ ['\\', d]) s) (by simp)
  by_cases hd : c = '$'
  · subst hd
    cases rest with
    | nil =>
      rw [ssc_dollar_other hc acc s [] (by simp)]; right
      simpa using ssc_remaining_le [] true (acc ++ ['$']) s
    | cons e tl =>
      by_cases he : e = '{'
      · subst he; rw [ssc_dollar_open]; right; simp
      · rw [ssc_dollar_other hc acc s (e :: tl) (by simp [he])]; right
        exact ssc_remaining_le (e :: tl) true (acc ++ ['$']) s
  · rw [ssc_other hc acc s c rest h0 hq hb hd]; right
    exact ssc_remaining_le rest true (acc ++ [c]) s

/-- Running the loop over content free of the stop characters up to a
closing quote consumes exactly that content and stops at the quote. -/
theorem ssc_clean (content : List Char) (rest acc : List Char) (s : Scanner)
    (hne : content ≠ [])
    (hcl : ∀ c ∈ content, c ≠ '"' ∧ c ≠ '\\' ∧ c ≠ '$' ∧ c ≠ Char.ofNat 0) :
    ∀ hc : Bool, scan_string_content (content ++ '"' :: rest) hc acc s =
      ScanResult.mk (some TokenType.STRING_CONTENT) (acc ++ content) s ('"' :: rest) := by
  induction content generalizing acc with
  | nil => simp at hne
  | cons c tl ih =>
    intro hc
    obtain ⟨hq, hb, hd, h0⟩ := hcl c (List.mem_cons_self c tl)
    rw [List.cons_append, ssc_other hc acc s c _ h0 hq hb hd]
    cases tl with
    | nil => simp [ssc_quote]
    | cons e tl2 =>
      rw [ih _ (by simp) (fun x hx => hcl x (List.mem_cons_of_mem c hx)) true]
      simp

theorem dropWhile_not_ws (c : Char) (l : List Char) (h : iswspace c = false) :
    (c :: l).dropWhile iswspace = c :: l := by
  rw [List.dropWhile_cons, h]
  simp

example :
    yuho_scanner_scan (fun _ => true) (Scanner.mk true false 0)
      ['a', 'b', 'c', '"'] =
    ScanResult.mk (some TokenType.STRING_CONTENT) ['a', 'b', 'c']
      (Scanner.mk true false 0) ['"'] := by decide

example :
    yuho_scanner_scan (fun _ => true) (Scanner.mk true false 0)
      ['$', '{', 'x'] =
    ScanResult.mk (some TokenType.INTERPOLATION_START) ['$', '{']
      (Scanner.mk true true 1) ['x'] := by decide

example :
    yuho_scanner_scan (fun _ => true) (Scanner.mk true true 1) ['}'] =
    ScanResult.mk (some TokenType.INTERPOLATION_END) ['}']
      (Scanner.mk true false 0) [] := by decide

example :
    yuho_scanner_scan (fun _ => true) (Scanner.mk true false 0) ['\\'] =
    ScanResult.mk none ['\\'] (Scanner.mk true false 0) [] := by decide

example :
    yuho_scanner_scan (fun _ => true) (Scanner.mk true false 0) [' ', '"'] =
    ScanResult.mk none [] (Scanner.mk true false 0) ['"'] := by decide

example :
    yuho_scanner_scan (fun _ => true) (Scanner.mk true false 0) ['a', '$', '{'] =
    ScanResult.mk (some TokenType.INTERPOLATION_START) ['a', '$', '{']
      (Scanner.mk true true 1) [] := by decide

/-! ## Claims -/

/-- C1 counterexample: with prior literal content in the same call the
reported `InterpolationStart` span is not exactly the two opener
characters — the scanner never excludes the already-advanced literal
characters from the span. -/
theorem C1_counterexample :
    (yuho_scanner_scan (fun _ => true) (Scanner.mk true false 0)
        ['a', '$', '{']).result = some TokenType.INTERPOLATION_START ∧
      (yuho_scanner_scan (fun _ => true) (Scanner.mk true false 0)
        ['a', '$', '{']).consumed ≠ ['$', '{'] := by
  decide

/-- C1 (amended): on reaching `$` immediately followed by an opening
brace, the string-content loop consumes both characters, sets
`in_interpolation := true` and `interpolation_depth := 1`, and reports
`InterpolationStart`; the consumed span is the literal characters
already accumulated in the call followed by the two opener characters,
hence exactly the opener precisely when no literal content preceded it,
as in any scan call with `in_string` true and `STRING_CONTENT` accepted
whose input starts with the opener. -/
theorem C1_interpolation_start :
    (∀ (rest acc : List Char) (hc : Bool) (s : Scanner),
      scan_string_content ('$' :: '{' :: rest) hc acc s =
        ScanResult.mk (some TokenType.INTERPOLATION_START) (acc ++ ['$', '{'])
          (Scanner.mk s.in_string true 1) rest) ∧
    (∀ (vs : TokenType → Bool) (s : Scanner) (rest : List Char),
      vs TokenType.STRING_CONTENT = true → s.in_string = true →
      yuho_scanner_scan vs s ('$' :: '{' :: rest) =
        ScanResult.mk (some TokenType.INTERPOLATION_START) ['$', '{']
          (Scanner.mk true true 1) rest) := by
  constructor
  · intro rest acc hc s
    exact ssc_dollar_open hc acc s rest
  · intro vs s rest hvs hs
    have hdw : ('$' :: '{' :: rest).dropWhile iswspace = '$' :: '{' :: rest :=
      dropWhile_not_ws '$' _ (by decide)
    rw [scan_eq_tail vs s _ (by rw [hdw]; simp)]
    unfold scan_tail
    rw [hdw, bt_not_brace _ _ (by simp), hvs, hs]
    simp [ssc_dollar_open, hs]

/-- C1 witness: concrete opener with no preceding content, at the loop
level and for a full scan call. -/
theorem C1_witness :
    scan_string_content ['$', '{'] false [] (Scanner.mk true false 0) =
      ScanResult.mk (some TokenType.INTERPOLATION_START) ['$', '{']
        (Scanner.mk true true 1) [] ∧
    yuho_scanner_scan (fun _ => true) (Scanner.mk true false 0) ['$', '{'] =
      ScanResult.mk (some TokenType.INTERPOLATION_START) ['$', '{']
        (Scanner.mk true true 1) [] := by
  constructor
  · have h := C1_interpolation_start.1 [] [] false (Scanner.mk true false 0)
    simpa using h
  · exact C1_interpolation_start.2 (fun _ => true) (Scanner.mk true false 0) [] rfl rfl

/-- C2 counterexample: remaining input up to the quote consisting of a
single space is non-empty and contains no quote, backslash or dollar,
yet the call reports no token at all — the space is skipped by the
whitespace loop before string-content scanning, so nothing accumulates. -/
theorem C2_counterexample :
    (yuho_scanner_scan (fun _ => true) (Scanner.mk true false 0) [' ', '"']).result =
        none ∧
      (yuho_scanner_scan (fun _ => true) (Scanner.mk true false 0) [' ', '"']).consumed =
        [] := by
  decide

/-- C2 (amended): for a scan call with `in_string` true,
`in_interpolation` false and `STRING_CONTENT` accepted, if the text up
to the closing quote is non-empty, starts with a non-whitespace
character, and contains none of quote, backslash, dollar or NUL (which
the scanner treats as end-of-input), then the call consumes exactly
that text and reports `StringContent` spanning it, leaving the quote
unconsumed and the state unchanged. -/
theorem C2_string_content :
    ∀ (vs : TokenType → Bool) (s : Scanner) (p : Char) (pre rest : List Char),
      vs TokenType.STRING_CONTENT = true → s.in_string = true →
      s.in_interpolation = false → iswspace p = false →
      (∀ c ∈ p :: pre, c ≠ '"' ∧ c ≠ '\\' ∧ c ≠ '$' ∧ c ≠ Char.ofNat 0) →
      yuho_scanner_scan vs s ((p :: pre) ++ '"' :: rest) =
        ScanResult.mk (some TokenType.STRING_CONTENT) (p :: pre) s ('"' :: rest) := by
  intro vs s p pre rest hvs hs hin hws hcl
  rw [scan_not_interp vs s _ hin]
  have hdw : ((p :: pre) ++ '"' :: rest).dropWhile iswspace = (p :: pre) ++ '"' :: rest := by
    rw [List.cons_append, dropWhile_not_ws p _ hws]
  rw [hdw]
  unfold scan_tail
  rw [bt_not_interp _ _ hin, hvs, hs]
  have h := ssc_clean (p :: pre) rest [] s (by simp) hcl false
  simpa using h

/-- C2 witness: scanning `a` before the closing quote. -/
theorem C2_witness :
    yuho_scanner_scan (fun _ => true) (Scanner.mk true false 0) ['a', '"'] =
      ScanResult.mk (some TokenType.STRING_CONTENT) ['a'] (Scanner.mk true false 0)
        ['"'] :=
  C2_string_content (fun _ => true) (Scanner.mk true false 0) 'a' [] [] rfl rfl rfl
    (by decide) (by decide)

/-- C3: the interpolation-end matching step invoked by a scan call with
`INTERPOLATION_END` accepted and `in_interpolation` true.  On a closing
brace the depth is decremented (8-bit arithmetic); at zero the brace is
consumed, the interpolation is left and `InterpolationEnd` spans exactly
that character — the full scan call then returns that token; at a
positive result the brace is not consumed and the matcher reports no
token while the decrement persists in the state; on any other next
character the matcher reports no token and leaves the state unchanged. -/
theorem C3_interpolation_end :
    (∀ (s : Scanner) (rest : List Char), s.in_interpolation = true →
      (s.interpolation_depth + 255) % 256 = 0 →
      scan_interpolation_end ('}' :: rest) s =
        ScanResult.mk (some TokenType.INTERPOLATION_END) ['}']
          (Scanner.mk s.in_string false 0) rest) ∧
    (∀ (s : Scanner) (rest : List Char), s.in_interpolation = true →
      (s.interpolation_depth + 255) % 256 ≠ 0 →
      scan_interpolation_end ('}' :: rest) s =
        ScanResult.mk none []
          (Scanner.mk s.in_string s.in_interpolation ((s.interpolation_depth + 255) % 256))
          ('}' :: rest)) ∧
    (∀ (s : Scanner) (input : List Char), input.head? ≠ some '}' →
      scan_interpolation_end input s = ScanResult.mk none [] s input) ∧
    (∀ (vs : TokenType → Bool) (s : Scanner) (rest : List Char),
      vs TokenType.INTERPOLATION_END = true → s.in_interpolation = true →
      (s.interpolation_depth + 255) % 256 = 0 →
      yuho_scanner_scan vs s ('}' :: rest) =
        ScanResult.mk (some TokenType.INTERPOLATION_END) ['}']
          (Scanner.mk s.in_string false 0) rest) := by
  refine ⟨sie_close, sie_deeper, sie_nobrace, ?_⟩
  intro vs s rest hvs hin hz
  unfold yuho_scanner_scan
  rw [hvs, hin]
  rw [dropWhile_not_ws '}' rest (by decide), sie_close s rest hin hz]
  simp

/-- C3 witness: depth 1 closes and the brace is reported; depth 2 only
decrements; a non-brace leaves the depth unchanged. -/
theorem C3_witness :
    scan_interpolation_end ['}'] (Scanner.mk true true 1) =
      ScanResult.mk (some TokenType.INTERPOLATION_END) ['}'] (Scanner.mk true false 0)
        [] ∧
    scan_interpolation_end ['}'] (Scanner.mk true true 2) =
      ScanResult.mk none [] (Scanner.mk true true 1) ['}'] ∧
    scan_interpolation_end ['x'] (Scanner.mk true true 2) =
      ScanResult.mk none [] (Scanner.mk true true 2) ['x'] ∧
    yuho_scanner_scan (fun _ => true) (Scanner.mk true true 1) ['}'] =
      ScanResult.mk (some TokenType.INTERPOLATION_END) ['}'] (Scanner.mk true false 0)
        [] := by
  refine ⟨?_, ?_, ?_, ?_⟩
  · exact C3_interpolation_end.1 (Scanner.mk true true 1) [] rfl (by decide)
  · have h := C3_interpolation_end.2.1 (Scanner.mk true true 2) [] rfl (by decide)
    simpa using h
  · exact C3_interpolation_end.2.2.1 (Scanner.mk true true 2) ['x'] (by decide)
  · exact C3_interpolation_end.2.2.2 (fun _ => true) (Scanner.mk true true 1) [] rfl rfl
      (by decide)

/-- C4: for every reachable state, serialization emits exactly the
3-byte layout with booleans encoded 0/1, and deserialization of that
buffer restores the state (round-trip law). -/
theorem C4_serialize_roundtrip :
    ∀ s : Scanner, Reachable s →
      yuho_scanner_serialize s =
        [bool_to_byte s.in_string, bool_to_byte s.in_interpolation,
          s.interpolation_depth] ∧
      (yuho_scanner_serialize s).length = 3 ∧
      yuho_scanner_deserialize (yuho_scanner_serialize s) = s := by
  intro s hr
  exact ⟨rfl, rfl, roundtrip_of_lt s (reachable_depth_lt s hr)⟩

/-- C4 witness: round trip at the freshly created state. -/
theorem C4_witness :
    yuho_scanner_deserialize (yuho_scanner_serialize yuho_scanner_create) =
      yuho_scanner_create :=
  (C4_serialize_roundtrip yuho_scanner_create Reachable.create).2.2

/-- C5: a buffer shorter than 3 bytes deserializes to the all-clear
default regardless of its contents; a buffer of length at least 3
restores the three fields from its first three bytes. -/
theorem C5_deserialize_cases :
    ∀ buffer : List Nat,
      (buffer.length < 3 → yuho_scanner_deserialize buffer = Scanner.mk false false 0) ∧
      (3 ≤ buffer.length → yuho_scanner_deserialize buffer =
        Scanner.mk (byte_to_bool (buffer.getD 0 0)) (byte_to_bool (buffer.getD 1 0))
          (buffer.getD 2 0 % 256)) := by
  intro buffer
  constructor
  · intro h
    unfold yuho_scanner_deserialize
    rw [if_neg (by omega)]
  · intro h
    unfold yuho_scanner_deserialize
    rw [if_pos h]

/-- C5 witness: a 2-byte buffer with junk contents resets; a 3-byte
buffer restores verbatim. -/
theorem C5_witness :
    yuho_scanner_deserialize [9, 7] = Scanner.mk false false 0 ∧
    yuho_scanner_deserialize [1, 0, 5] = Scanner.mk true false 5 := by
  constructor
  · exact (C5_deserialize_cases [9, 7]).1 (by norm_num)
  · have h := (C5_deserialize_cases [1, 0, 5]).2 (by norm_num)
    rw [h]
    decide

/-- C6: during string-content scanning a backslash followed by any
character other than the NUL end-of-input sentinel — including quote,
backslash and dollar — consumes both characters as literal content and
continues the loop, so an escaped quote never terminates the literal
and an escaped dollar never starts an interpolation. -/
theorem C6_escape :
    ∀ (c : Char) (rest acc : List Char) (hc : Bool) (s : Scanner), c ≠ Char.ofNat 0 →
      scan_string_content ('\\' :: c :: rest) hc acc s =
        scan_string_content rest true (acc ++ ['\\', c]) s := by
  intro c rest acc hc s h0
  exact ssc_backslash hc acc s c rest h0

/-- C6 witness: an escaped quote stays literal content, and an escaped
dollar before a brace does not open an interpolation. -/
theorem C6_witness :
    scan_string_content ['\\', '"'] false [] (Scanner.mk true false 0) =
      scan_string_content [] true ['\\', '"'] (Scanner.mk true false 0) ∧
    scan_string_content ['\\', '$', '{', '"'] false [] (Scanner.mk true false 0) =
      scan_string_content ['{', '"'] true ['\\', '$'] (Scanner.mk true false 0) := by
  constructor
  · have h := C6_escape '"' [] [] false (Scanner.mk true false 0) (by decide)
    simpa using h
  · have h := C6_escape '$' ['{', '"'] [] false (Scanner.mk true false 0) (by decide)
    simpa using h

/-- C7 counterexample: a scan call whose remaining input is exactly one
backslash consumes the backslash but reports no token — the lone
backslash does not set the content flag, contradicting the claim that
`StringContent` spanning the backslash is reported. -/
theorem C7_counterexample :
    (yuho_scanner_scan (fun _ => true) (Scanner.mk true false 0) ['\\']).consumed =
        ['\\'] ∧
      (yuho_scanner_scan (fun _ => true) (Scanner.mk true false 0) ['\\']).result =
        none := by
  decide

/-- C7 (amended): at end-of-input right after a backslash only the
backslash is consumed; it joins the span but does not count as
accumulated content, so the loop reports `StringContent` exactly when
content had accumulated before the backslash, and a scan call with
`in_string` true and `STRING_CONTENT` accepted whose remaining input is
exactly one backslash consumes it and reports no token. -/
theorem C7_trailing_backslash :
    (∀ (hc : Bool) (acc : List Char) (s : Scanner),
      scan_string_content ['\\'] hc acc s =
        ScanResult.mk (if hc then some TokenType.STRING_CONTENT else none)
          (acc ++ ['\\']) s []) ∧
    (∀ (vs : TokenType → Bool) (s : Scanner),
      vs TokenType.STRING_CONTENT = true → s.in_string = true →
      yuho_scanner_scan vs s ['\\'] = ScanResult.mk none ['\\'] s []) := by
  constructor
  · exact ssc_backslash_nil
  · intro vs s hvs hs
    rw [scan_eq_tail vs s _ (by decide)]
    unfold scan_tail
    rw [dropWhile_not_ws '\\' [] (by decide), bt_not_brace _ _ (by decide), hvs, hs]
    simp [ssc_backslash_nil]

/-- C7 witness: the loop-level equation at a concrete state with and
without prior content, and the full scan call on a lone backslash. -/
theorem C7_witness :
    scan_string_content ['\\'] true ['a'] (Scanner.mk true false 0) =
      ScanResult.mk (some TokenType.STRING_CONTENT) ['a', '\\']
        (Scanner.mk true false 0) [] ∧
    yuho_scanner_scan (fun _ => true) (Scanner.mk true false 0) ['\\'] =
      ScanResult.mk none ['\\'] (Scanner.mk true false 0) [] := by
  constructor
  · have h := C7_trailing_backslash.1 true ['a'] (Scanner.mk true false 0)
    simpa using h
  · exact C7_trailing_backslash.2 (fun _ => true) (Scanner.mk true false 0) rfl rfl

/-- C8: every state reachable from `create` through scan calls and
serialize/deserialize round trips satisfies the invariant that the
depth is zero whenever `in_interpolation` is false, and every scan call
preserves the invariant for every input and accepted-kind set. -/
theorem C8_invariant :
    (∀ s : Scanner, Reachable s → ScannerInv s) ∧
    (∀ (vs : TokenType → Bool) (input : List Char) (s : Scanner),
      ScannerInv s → ScannerInv (yuho_scanner_scan vs s input).state) := by
  constructor
  · intro s h
    induction h with
    | create => intro _; rfl
    | scan vs input s0 _ ih => exact scan_state_inv vs input s0 ih
    | codec s0 hr ih =>
      rw [roundtrip_of_lt s0 (reachable_depth_lt s0 hr)]
      exact ih
  · intro vs input s h
    exact scan_state_inv vs input s h

/-- C8 witness: the invariant at the created state and after a scan
that opens an interpolation. -/
theorem C8_witness :
    ScannerInv yuho_scanner_create ∧
    ScannerInv (yuho_scanner_scan (fun _ => true) (Scanner.mk true false 0)
      ['$', '{']).state :=
  ⟨C8_invariant.1 yuho_scanner_create Reachable.create,
   C8_invariant.2 (fun _ => true) ['$', '{'] (Scanner.mk true false 0) (fun _ => rfl)⟩

/-- C9: every scan call is a total function of its finite input whose
loops make progress — the characters consumed by the string-content
loop and the remaining input exactly reconstitute the original input;
one iteration on a non-empty input either stops with the input intact
(end-of-input, NUL or quote detected) or consumes at least one
character; the whitespace loop never lengthens the input; and the full
scan call never lengthens the remaining input. -/
theorem C9_termination :
    (∀ (input : List Char) (hc : Bool) (acc : List Char) (s : Scanner),
      (scan_string_content input hc acc s).consumed ++
          (scan_string_content input hc acc s).remaining = acc ++ input) ∧
    (∀ (c : Char) (rest : List Char) (hc : Bool) (acc : List Char) (s : Scanner),
      (scan_string_content (c :: rest) hc acc s).remaining = c :: rest ∨
        (scan_string_content (c :: rest) hc acc s).remaining.length ≤ rest.length) ∧
    (∀ l : List Char, (l.dropWhile iswspace).length ≤ l.length) ∧
    (∀ (vs : TokenType → Bool) (s : Scanner) (input : List Char),
      (yuho_scanner_scan vs s input).remaining.length ≤ input.length) :=
  ⟨ssc_decomp, ssc_progress, dropWhile_length_le iswspace, scan_remaining_le⟩

/-- C10: a scan call never reports `ErrorSentinel` — every reported
kind is literal content, the interpolation opener or the interpolation
closer — and flipping the `ERROR_SENTINEL` entry of the accepted-kind
set never changes the call's result, span, state or remaining input. -/
theorem C10_no_error_sentinel :
    ∀ (vs : TokenType → Bool) (s : Scanner) (input : List Char),
      (∀ k : TokenType, (yuho_scanner_scan vs s input).result = some k →
        k = TokenType.STRING_CONTENT ∨ k = TokenType.INTERPOLATION_START ∨
          k = TokenType.INTERPOLATION_END) ∧
      (∀ b : Bool,
        yuho_scanner_scan (fun t => if t = TokenType.ERROR_SENTINEL then b else vs t) s
            input =
          yuho_scanner_scan vs s input) := by
  intro vs s input
  constructor
  · intro k hk
    rcases scan_result_cases vs s input with h | h | h | h <;> rw [h] at hk <;>
      simp only [Option.some.injEq, reduceCtorEq] at hk
    · exact Or.inl hk.symm
    · exact Or.inr (Or.inl hk.symm)
    · exact Or.inr (Or.inr hk.symm)
  · intro b
    unfold yuho_scanner_scan scan_tail
    simp

/-- C10 witness: a call that reports literal content satisfies the kind
restriction, and toggling the error-sentinel query bit off leaves a
concrete call unchanged. -/
theorem C10_witness :
    (TokenType.STRING_CONTENT = TokenType.STRING_CONTENT ∨
      TokenType.STRING_CONTENT = TokenType.INTERPOLATION_START ∨
      TokenType.STRING_CONTENT = TokenType.INTERPOLATION_END) ∧
    yuho_scanner_scan
        (fun t => if t = TokenType.ERROR_SENTINEL then false else (fun _ => true) t)
        (Scanner.mk true false 0) ['a', '"'] =
      yuho_scanner_scan (fun _ => true) (Scanner.mk true false 0) ['a', '"'] :=
  ⟨(C10_no_error_sentinel (fun _ => true) (Scanner.mk true false 0) ['a', '"']).1
      TokenType.STRING_CONTENT (by decide),
   (C10_no_error_sentinel (fun _ => true) (Scanner.mk true false 0) ['a', '"']).2 false⟩
